import Mathlib

/-!
Shallow embedding of the VSTGUI `CViewContainer` subsystem
(`src/vstgui/lib/cviewcontainer.cpp`) and proofs about it.

Coordinates are modelled as integers (`Int`), matching the spec's statement
that coordinate arithmetic is exact integer arithmetic; the `CCoord` header is
not part of the sources under verification.  Child views are identified by
`Nat` ids (modelling pointer identity); the intrusive doubly linked list
`pFirstView … pLastView` is modelled by the list of its nodes in
head-to-tail order.
-/

namespace VSTGUI

/-- Modelled from the spec: a 2-D point (`CPoint`, header not in the sources);
coordinate arithmetic is exact integer arithmetic. -/
structure CPoint where
  x : Int
  y : Int
  deriving DecidableEq

/-- Modelled from the spec: a rectangle given by its four edges (`CRect`,
header not in the sources). -/
structure CRect where
  left : Int
  top : Int
  right : Int
  bottom : Int
  deriving DecidableEq

def CRect.getWidth (r : CRect) : Int := r.right - r.left

def CRect.getHeight (r : CRect) : Int := r.bottom - r.top

def CRect.offset (r : CRect) (dx dy : Int) : CRect :=
  ⟨r.left + dx, r.top + dy, r.right + dx, r.bottom + dy⟩

/-- `CRect::setWidth`: keeps the left edge and moves the right edge. -/
def CRect.setWidth (r : CRect) (w : Int) : CRect :=
  ⟨r.left, r.top, r.left + w, r.bottom⟩

/-- `CRect::setHeight`: keeps the top edge and moves the bottom edge. -/
def CRect.setHeight (r : CRect) (h : Int) : CRect :=
  ⟨r.left, r.top, r.right, r.top + h⟩

/-- Modelled from the spec: `CRect::bound` clips a rectangle to a bounding
rectangle (each edge is clamped into the bounds); `crect.cpp` is not in the
sources, the spec describes the operation as clipping. -/
def CRect.bound (r b : CRect) : CRect :=
  ⟨max r.left b.left, max r.top b.top, min r.right b.right, min r.bottom b.bottom⟩

/-- Modelled from the spec: a rectangle is empty when it has no positive
width or no positive height. -/
def CRect.isEmpty (r : CRect) : Bool :=
  r.right ≤ r.left || r.bottom ≤ r.top

/-- Modelled from the spec: `CPoint` containment in a rectangle, used by the
default `CView::hitTest` (point containment against the mouse-sensitive
area). -/
def CPoint.isInside (p : CPoint) (r : CRect) : Bool :=
  r.left ≤ p.x && p.x < r.right && r.top ≤ p.y && p.y < r.bottom

/-! ### Coordinate transforms (`frameToLocal` / `localToFrame`)

`CViewContainer::localToFrame` offsets the point by the container's own
origin (`size.left`, `size.top`) and recurses into the parent view;
`frameToLocal` subtracts the own origin and recurses into the parent view.
A chain of nested containers is represented by the list of the origins
encountered from the view up to the root. -/

def localToFrame : List CPoint → CPoint → CPoint
  | [], p => p
  | o :: rest, p => localToFrame rest ⟨p.x + o.x, p.y + o.y⟩

def frameToLocal : List CPoint → CPoint → CPoint
  | [], p => p
  | o :: rest, p => frameToLocal rest ⟨p.x - o.x, p.y - o.y⟩

def chainSum : List CPoint → CPoint
  | [] => ⟨0, 0⟩
  | o :: rest => ⟨o.x + (chainSum rest).x, o.y + (chainSum rest).y⟩

/-! ### Invalidation (`CViewContainer::invalidRect`) -/

/-- Container state needed by `invalidRect`: its frame (`size`, in parent
coordinates) and its visibility flag. -/
structure ContVis where
  size : CRect
  visible : Bool
  deriving DecidableEq

/-- `CViewContainer::invalidRect`: returns the rectangle forwarded to the
parent view or frame (the code forwards to `pParentView` if present,
otherwise to `pParentFrame`), or `none` when nothing is forwarded. -/
def ContVis.invalidRect (c : ContVis) (rect : CRect) : Option CRect :=
  if c.visible = false then none
  else
    let r := (rect.offset c.size.left c.size.top).bound c.size
    if r.isEmpty then none else some r

/-! ### Child list operations -/

/-- `CViewContainer::getView (index)`: walks the list counting from 0 and
returns the view whose running count equals `index` (an `int32_t`). -/
def getViewAux : List Nat → Int → Int → Option Nat
  | [], _, _ => none
  | x :: rest, nb, index => if nb = index then some x else getViewAux rest (nb + 1) index

def getView (children : List Nat) (index : Int) : Option Nat :=
  getViewAux children 0 index

/-- `CViewContainer::addView (pView, pBefore)`, insertion walk: starting at
`pFirstView`, advance while the node has a successor and its view is not
`pBefore`; the new node is linked in before the stopping node.  The walk is
only entered for a non-empty list; on an empty list the view becomes the
only element. -/
def addViewBeforeLoop : List Nat → Nat → Option Nat → List Nat
  | [], v, _ => [v]
  | [x], v, _ => [v, x]
  | x :: y :: rest, v, before =>
      if some x = before then v :: x :: y :: rest
      else x :: addViewBeforeLoop (y :: rest) v before

def addViewBefore (children : List Nat) (v : Nat) (before : Option Nat) : List Nat :=
  match children with
  | [] => [v]
  | _ :: _ => addViewBeforeLoop children v before

/-- `CViewContainer::changeViewZOrder (view, newIndex)`: fails when
`pFirstView == pLastView` (fewer than two nodes) or when the view is not a
child; otherwise unlinks the view's node, walks the remaining list
decrementing `newIndex` (an `int32_t`) to find the node at that position,
and inserts the unlinked node before it, or at the tail when the walk runs
off the end. -/
def changeViewZOrder (children : List Nat) (view : Nat) (newIndex : Int) :
    Bool × List Nat :=
  if children.length ≤ 1 then (false, children)
  else if view ∈ children then
    let rest := children.erase view
    (true,
      if 0 ≤ newIndex ∧ newIndex < (rest.length : Int) then
        rest.take newIndex.toNat ++ view :: rest.drop newIndex.toNat
      else rest ++ [view])
  else (false, children)

/-! ### Capture back-references (`removeView` / `removeAll`) -/

/-- Container state relevant to the captured mouse-down and drag-target
back-references: the child list, `mouseDownView` and `currentDragView`
(`none` models the null pointer). -/
structure ContME where
  children : List Nat
  mouseDownView : Option Nat
  currentDragView : Option Nat
  deriving DecidableEq

/-- `CViewContainer::removeView (pView, withForget)`: first clears
`mouseDownView` and `currentDragView` when they reference the removed view,
then unlinks the first matching node, returning true; returns false when the
view is not a child. -/
def ContME.removeView (s : ContME) (v : Nat) : ContME × Bool :=
  let s1 : ContME :=
    { children := s.children
      mouseDownView := if s.mouseDownView = some v then none else s.mouseDownView
      currentDragView := if s.currentDragView = some v then none else s.currentDragView }
  if v ∈ s1.children then
    ({ s1 with children := s1.children.erase v }, true)
  else (s1, false)

/-- `CViewContainer::removeAll (withForget)`: clears `mouseDownView` and
`currentDragView`, unlinks every node and returns true. -/
def ContME.removeAll (_s : ContME) : ContME × Bool :=
  (⟨[], none, none⟩, true)

/-! ### Autosizing (`CViewContainer::setViewSize`) and `sizeToFit` -/

/-- The per-view autosizing bit-set `{left, top, right, bottom, column, row}`
(`kAutosizeLeft` and so on; the code only ever tests the individual bits). -/
structure AutosizeFlags where
  left : Bool
  top : Bool
  right : Bool
  bottom : Bool
  column : Bool
  row : Bool
  deriving DecidableEq

/-- Per-child state used by `setViewSize` and `sizeToFit`: visibility,
autosizing flags, frame (`getViewSize`) and mouseable area. -/
structure ViewState where
  visible : Bool
  autosize : AutosizeFlags
  viewSize : CRect
  mouseSize : CRect
  deriving DecidableEq

/-- Geometry state of a container: its own frame, its own autosizing flags
(deciding `treatAsColumn` / `treatAsRow`) and its children. -/
structure ContainerGeom where
  size : CRect
  autosize : AutosizeFlags
  children : List ViewState
  deriving DecidableEq

/-- Horizontal part of the per-child resize in `CViewContainer::setViewSize`:
the `treatAsColumn` branch distributes `widthDelta / numSubviews` (integer
division), otherwise `kAutosizeRight` moves the right edge by `widthDelta`
and, when `kAutosizeLeft` is absent, also moves the left edge. -/
def resizeH (tc : Bool) (n wD : Int) (counter : Nat) (a : AutosizeFlags) (r : CRect) : CRect :=
  if tc = true then
    let q := Int.tdiv wD n
    let r1 := if counter ≠ 0 then r.offset ((counter : Int) * q) 0 else r
    r1.setWidth (r1.getWidth + q)
  else if wD ≠ 0 ∧ a.right = true then
    let r1 : CRect := ⟨r.left, r.top, r.right + wD, r.bottom⟩
    if a.left = false then ⟨r1.left + wD, r1.top, r1.right, r1.bottom⟩ else r1
  else r

/-- Vertical part of the per-child resize, the mirror image of `resizeH`
(`treatAsRow` / `kAutosizeBottom` / `kAutosizeTop`). -/
def resizeV (tr : Bool) (n hD : Int) (counter : Nat) (a : AutosizeFlags) (r : CRect) : CRect :=
  if tr = true then
    let q := Int.tdiv hD n
    let r1 := if counter ≠ 0 then r.offset 0 ((counter : Int) * q) else r
    r1.setHeight (r1.getHeight + q)
  else if hD ≠ 0 ∧ a.bottom = true then
    let r1 : CRect := ⟨r.left, r.top, r.right, r.bottom + hD⟩
    if a.top = false then ⟨r1.left, r1.top + hD, r1.right, r1.bottom⟩ else r1
  else r

/-- One iteration of the `FOREACHSUBVIEW` loop in `setViewSize`: both the
frame and the mouseable area go through the same transforms; the code only
stores them when the computed frame differs from the current one. -/
def resizeStep (tc tr : Bool) (n wD hD : Int) (counter : Nat) (pV : ViewState) : ViewState :=
  let vs := resizeV tr n hD counter pV.autosize (resizeH tc n wD counter pV.autosize pV.viewSize)
  let ms := resizeV tr n hD counter pV.autosize (resizeH tc n wD counter pV.autosize pV.mouseSize)
  if vs = pV.viewSize then pV else { pV with viewSize := vs, mouseSize := ms }

def resizeLoop (tc tr : Bool) (n wD hD : Int) : Nat → List ViewState → List ViewState
  | _, [] => []
  | counter, v :: rest =>
      resizeStep tc tr n wD hD counter v :: resizeLoop tc tr n wD hD (counter + 1) rest

/-- `CViewContainer::setViewSize (rect, invalid)`: returns unchanged when the
rectangle equals the current frame; otherwise stores the new frame and, when
the width or height changed, recomputes every child's frame and mouseable
area according to the autosizing flags. -/
def CViewContainer.setViewSize (c : ContainerGeom) (rect : CRect) : ContainerGeom :=
  if rect = c.size then c
  else
    let wD := rect.getWidth - c.size.getWidth
    let hD := rect.getHeight - c.size.getHeight
    if wD = 0 ∧ hD = 0 then { c with size := rect }
    else
      { c with
        size := rect
        children :=
          resizeLoop c.autosize.column c.autosize.row (c.children.length : Int)
            wD hD 0 c.children }

/-- One iteration of the bounds accumulation in `sizeToFit`: each visible
child widens the accumulated rectangle edge by edge. -/
def fitBoundsStep (b : CRect) (v : ViewState) : CRect :=
  if v.visible = true then
    ⟨min b.left v.viewSize.left, min b.top v.viewSize.top,
     max b.right v.viewSize.right, max b.bottom v.viewSize.bottom⟩
  else b

def fitBounds : List ViewState → CRect → CRect
  | [], b => b
  | v :: rest, b => fitBounds rest (fitBoundsStep b v)

/-- `CViewContainer::sizeToFit`: returns false untouched when row or column
autosizing is active; otherwise accumulates the visible children's bounds
starting from the sentinel (50000, 50000, -50000, -50000) and sets the own
frame to `left .. left + bounds.right + bounds.left` by
`top .. top + bounds.bottom + bounds.top` via `setViewSize`, returning
true. -/
def CViewContainer.sizeToFit (c : ContainerGeom) : Bool × ContainerGeom :=
  if c.autosize.column = true ∨ c.autosize.row = true then (false, c)
  else
    let bounds := fitBounds c.children ⟨50000, 50000, -50000, -50000⟩
    let vs : CRect :=
      ⟨c.size.left, c.size.top,
       c.size.left + bounds.right + bounds.left,
       c.size.top + bounds.bottom + bounds.top⟩
    (true, CViewContainer.setViewSize c vs)

/-- Concrete container for the C1 counterexample: frame (0,0,100,100), no
container autosizing, two children flagged `kAutosizeRight` only, at
(10,10,20,20) and (30,10,40,20). -/
def autosizeCexCont : ContainerGeom :=
  ⟨⟨0, 0, 100, 100⟩, ⟨false, false, false, false, false, false⟩,
   [⟨true, ⟨false, false, true, false, false, false⟩, ⟨10, 10, 20, 20⟩, ⟨10, 10, 20, 20⟩⟩,
    ⟨true, ⟨false, false, true, false, false, false⟩, ⟨30, 10, 40, 20⟩, ⟨30, 10, 40, 20⟩⟩]⟩

/-- Concrete container for the C2 counterexample: frame (0,0,100,100), no
autosizing, one visible child at (10,0,20,20). -/
def sizeToFitCexCont : ContainerGeom :=
  ⟨⟨0, 0, 100, 100⟩, ⟨false, false, false, false, false, false⟩,
   [⟨true, ⟨false, false, false, false, false, false⟩, ⟨10, 0, 20, 20⟩, ⟨10, 0, 20, 20⟩⟩]⟩

/-! ### Mouse event dispatch (`onMouseDown` / `onMouseUp` / `onMouseMoved`) -/

/-- The three `CMouseEventResult` values mentioned by the dispatch code. -/
inductive CMouseEventResult where
  | kMouseEventNotImplemented
  | kMouseEventNotHandled
  | kMouseEventHandled
  deriving DecidableEq

/-- Mouse button and modifier state; only the modifier bits
(`kAlt | kShift | kControl | kApple`) are inspected by the container. -/
structure CButtonState where
  alt : Bool
  shift : Bool
  control : Bool
  apple : Bool
  deriving DecidableEq

def CButtonState.hasModifier (b : CButtonState) : Bool :=
  b.alt || b.shift || b.control || b.apple

/-- Abstract behaviour of a child view as seen by the dispatch code: its
flags and area, its reference count, whether it is a `CControl` with a
listener, the value the listener's `controlModifierClicked` returns, and
the results of its own mouse handlers. -/
structure SubView where
  visible : Bool
  mouseEnabled : Bool
  transparency : Bool
  mouseableArea : CRect
  nbReference : Nat
  wantsFocus : Bool
  controlListener : Bool
  modifierClickResult : Int
  onMouseDownResult : CMouseEventResult
  onMouseMovedResult : CMouseEventResult
  deriving DecidableEq

/-- Modelled from the spec: the default `CView::hitTest` is point containment
against the mouse-sensitive area. -/
def SubView.hitTest (v : SubView) (p : CPoint) : Bool :=
  p.isInside v.mouseableArea

/-- Container state for mouse dispatch: frame, children (head = first view,
dispatch iterates in reverse) and the captured `mouseDownView` (an index
into the child list; `none` models the null pointer). -/
structure ContainerEv where
  size : CRect
  children : List SubView
  mouseDownView : Option Nat
  deriving DecidableEq

/-- The `FOREACHSUBVIEW_REVERSE` loop body of `CViewContainer::onMouseDown`,
over (index, view) pairs in tail-to-head order.  Returns the loop's result
and the assignment made to `mouseDownView` (`none` = no assignment).  The
`setFocusView` side effect is external and not part of the claims. -/
def onMouseDownLoop (p2 : CPoint) (b : CButtonState) :
    List (Nat × SubView) → CMouseEventResult × Option Nat
  | [] => (.kMouseEventNotHandled, none)
  | (i, v) :: rest =>
      if v.visible = true ∧ v.mouseEnabled = true ∧ v.hitTest p2 = true then
        if v.controlListener = true ∧ b.hasModifier = true ∧ v.modifierClickResult ≠ 0 then
          (.kMouseEventHandled, none)
        else
          let result := v.onMouseDownResult
          if result ≠ .kMouseEventNotHandled ∧ result ≠ .kMouseEventNotImplemented then
            (result,
              if 1 < v.nbReference ∧ result = .kMouseEventHandled then some i else none)
          else if v.transparency = false then (result, none)
          else onMouseDownLoop p2 b rest
      else onMouseDownLoop p2 b rest

/-- `CViewContainer::onMouseDown`: translates the point by the container
origin and runs the reverse loop; `mouseDownView` is only reassigned when
the loop records a capture. -/
def ContainerEv.onMouseDown (c : ContainerEv) (p : CPoint) (b : CButtonState) :
    CMouseEventResult × ContainerEv :=
  let r := onMouseDownLoop ⟨p.x - c.size.left, p.y - c.size.top⟩ b c.children.enum.reverse
  (r.1,
    { c with
      mouseDownView :=
        match r.2 with
        | some i => some i
        | none => c.mouseDownView })

/-- The first child, iterating tail-to-head, that is visible, mouse-enabled
and hit by the translated point — the child whose `onMouseDown` the dispatch
loop invokes. -/
def firstHitLoop (p2 : CPoint) : List (Nat × SubView) → Option (Nat × SubView)
  | [] => none
  | (i, v) :: rest =>
      if v.visible = true ∧ v.mouseEnabled = true ∧ v.hitTest p2 = true then some (i, v)
      else firstHitLoop p2 rest

def ContainerEv.firstHit (c : ContainerEv) (p : CPoint) : Option (Nat × SubView) :=
  firstHitLoop ⟨p.x - c.size.left, p.y - c.size.top⟩ c.children.enum.reverse

/-- `CViewContainer::onMouseUp`: with a captured view, forwards with the
translated point (the third component records the forwarded call: child
index and point — note no hit-testing is involved), clears the capture and
reports handled; with no capture reports not handled. -/
def ContainerEv.onMouseUp (c : ContainerEv) (p : CPoint) (_b : CButtonState) :
    CMouseEventResult × ContainerEv × Option (Nat × CPoint) :=
  match c.mouseDownView with
  | some i =>
      (.kMouseEventHandled, { c with mouseDownView := none },
        some (i, ⟨p.x - c.size.left, p.y - c.size.top⟩))
  | none => (.kMouseEventNotHandled, c, none)

/-- `CViewContainer::onMouseMoved`: with a captured view, forwards with the
translated point; when the child declines the capture is cleared and not
handled is reported; with no capture reports not handled.  (The capture
always references a child — see the C6 invariant — the `none` lookup arm is
unreachable.) -/
def ContainerEv.onMouseMoved (c : ContainerEv) (p : CPoint) (_b : CButtonState) :
    CMouseEventResult × ContainerEv × Option (Nat × CPoint) :=
  match c.mouseDownView with
  | some i =>
      let childRes :=
        match c.children[i]? with
        | some v => v.onMouseMovedResult
        | none => CMouseEventResult.kMouseEventNotHandled
      if childRes = .kMouseEventHandled then
        (.kMouseEventHandled, c, some (i, ⟨p.x - c.size.left, p.y - c.size.top⟩))
      else
        (.kMouseEventNotHandled, { c with mouseDownView := none },
          some (i, ⟨p.x - c.size.left, p.y - c.size.top⟩))
  | none => (.kMouseEventNotHandled, c, none)

/-! ### Attachment and the child-list invariant (`addView` / `removeView`)

A world of several containers, each with an attached flag (`isAttached` on
the container) and a child list, plus the set of views whose own attached
flag is set.  `CView::attached`/`removed`/`isAttached` are not in the
sources; modelled from the spec, `attached` marks the view attached and
`removed` clears the mark. -/

structure ContW where
  attachedC : Bool
  children : List Nat
  deriving DecidableEq

structure World where
  conts : List ContW
  attachedViews : List Nat
  deriving DecidableEq

def getCont : List ContW → Nat → Option ContW
  | [], _ => none
  | c :: _, 0 => some c
  | _ :: rest, i + 1 => getCont rest i

def updateCont : List ContW → Nat → ContW → List ContW
  | [], _, _ => []
  | _ :: rest, 0, cNew => cNew :: rest
  | c :: rest, i + 1, cNew => c :: updateCont rest i cNew

/-- `CViewContainer::addView (pView)` on container `ci` of the world: fails
when the view's attached flag is set (`pView->isAttached ()`); otherwise
appends a node at the tail and, only when the container itself is attached
(`if (isAttached ())`), marks the view attached (`pView->attached (this)`).
The null-view failure path has no counterpart here since views are ids. -/
def World.addView (w : World) (ci : Nat) (v : Nat) : World × Bool :=
  match getCont w.conts ci with
  | none => (w, false)
  | some c =>
      if v ∈ w.attachedViews then (w, false)
      else
        (⟨updateCont w.conts ci ⟨c.attachedC, c.children ++ [v]⟩,
          if c.attachedC = true then v :: w.attachedViews else w.attachedViews⟩,
         true)

/-- `CViewContainer::removeView (pView, withForget)` on container `ci`:
unlinks the first matching node and, only when the container is attached,
clears the view's attached flag (`pV->pView->removed (this)`). -/
def World.removeView (w : World) (ci : Nat) (v : Nat) : World × Bool :=
  match getCont w.conts ci with
  | none => (w, false)
  | some c =>
      if v ∈ c.children then
        (⟨updateCont w.conts ci ⟨c.attachedC, c.children.erase v⟩,
          if c.attachedC = true then w.attachedViews.erase v else w.attachedViews⟩,
         true)
      else (w, false)

inductive COp where
  | add (ci v : Nat)
  | remove (ci v : Nat)
  deriving DecidableEq

def applyOp (w : World) : COp → World
  | .add ci v => (w.addView ci v).1
  | .remove ci v => (w.removeView ci v).1

def runOps (w : World) (ops : List COp) : World :=
  ops.foldl applyOp w

/-- Two containers have disjoint child lists. -/
def Disj (a b : ContW) : Prop := ∀ v ∈ a.children, v ∉ b.children

/-- The inductive state invariant in a world where every container is
attached: each child carries the attached flag, each child list is
duplicate-free, and no view sits in two containers. -/
def WorldInv (w : World) : Prop :=
  (∀ c ∈ w.conts, c.attachedC = true ∧ c.children.Nodup ∧
    ∀ v ∈ c.children, v ∈ w.attachedViews) ∧
  w.conts.Pairwise Disj

/-- Concrete child for the C5 witness: visible, enabled, opaque, mouseable
area (10,10,30,30), reference count 2, handles mouse-down and mouse-move. -/
def capChild : SubView :=
  ⟨true, true, false, ⟨10, 10, 30, 30⟩, 2, false, false, 0,
   .kMouseEventHandled, .kMouseEventHandled⟩

/-- Concrete container for the C5 witness, no capture. -/
def capCont : ContainerEv := ⟨⟨0, 0, 100, 100⟩, [capChild], none⟩

/-- `capCont` after child 0 captured the mouse. -/
def capContDown : ContainerEv := ⟨⟨0, 0, 100, 100⟩, [capChild], some 0⟩

/-! ## Theorems -/

theorem localToFrame_eq (chain : List CPoint) (p : CPoint) :
    localToFrame chain p = ⟨p.x + (chainSum chain).x, p.y + (chainSum chain).y⟩ := by
  induction chain generalizing p with
  | nil => simp [localToFrame, chainSum]
  | cons o rest ih =>
      simp only [localToFrame, chainSum, ih, CPoint.mk.injEq]
      exact ⟨by ring, by ring⟩

theorem frameToLocal_eq (chain : List CPoint) (p : CPoint) :
    frameToLocal chain p = ⟨p.x - (chainSum chain).x, p.y - (chainSum chain).y⟩ := by
  induction chain generalizing p with
  | nil => simp [frameToLocal, chainSum]
  | cons o rest ih =>
      simp only [frameToLocal, chainSum, ih, CPoint.mk.injEq]
      exact ⟨by ring, by ring⟩

/-- C8: for every point and every chain of nested containers, `localToFrame`
followed by `frameToLocal` through the same chain returns the original point
exactly (integer coordinate arithmetic). -/
theorem frameToLocal_localToFrame_roundtrip (chain : List CPoint) (p : CPoint) :
    frameToLocal chain (localToFrame chain p) = p := by
  rw [localToFrame_eq, frameToLocal_eq]
  cases p with
  | mk x y => simp

/-- C7: `invalidRect` on a visible container translates the rectangle into the
parent's coordinate space and clips it to the container's own bounds; if the
clipped result is empty nothing is forwarded, otherwise exactly the clipped
translated rectangle is forwarded; on an invisible container nothing is
forwarded at all. -/
theorem invalidRect_spec (c : ContVis) (rect : CRect) :
    (c.visible = false → c.invalidRect rect = none) ∧
    (c.visible = true →
      ((rect.offset c.size.left c.size.top).bound c.size).isEmpty = true →
        c.invalidRect rect = none) ∧
    (c.visible = true →
      ((rect.offset c.size.left c.size.top).bound c.size).isEmpty = false →
        c.invalidRect rect =
          some ((rect.offset c.size.left c.size.top).bound c.size)) := by
  refine ⟨fun hv => ?_, fun hv he => ?_, fun hv he => ?_⟩
  · simp [ContVis.invalidRect, hv]
  · simp [ContVis.invalidRect, hv, he]
  · simp [ContVis.invalidRect, hv, he]

/-- C7 witness: the spec scenario, a container at (0,0,100,100) with dirty
child region (40,40,60,60) forwards (40,40,60,60) when visible and nothing
when invisible. -/
theorem invalidRect_spec_witness :
    ContVis.invalidRect ⟨⟨0, 0, 100, 100⟩, true⟩ ⟨40, 40, 60, 60⟩ =
        some ⟨40, 40, 60, 60⟩ ∧
      ContVis.invalidRect ⟨⟨0, 0, 100, 100⟩, false⟩ ⟨40, 40, 60, 60⟩ = none := by
  have h1 := (invalidRect_spec ⟨⟨0, 0, 100, 100⟩, true⟩ ⟨40, 40, 60, 60⟩).2.2
    (by decide) (by decide)
  have h2 := (invalidRect_spec ⟨⟨0, 0, 100, 100⟩, false⟩ ⟨40, 40, 60, 60⟩).1
    (by decide)
  exact ⟨by rw [h1]; decide, h2⟩

theorem getViewAux_out_of_range (children : List Nat) (nb index : Int)
    (h : index < nb ∨ nb + children.length ≤ index) :
    getViewAux children nb index = none := by
  induction children generalizing nb with
  | nil => rfl
  | cons x rest ih =>
      simp only [getViewAux]
      have hne : ¬ nb = index := by
        rcases h with h | h
        · omega
        · simp only [List.length_cons] at h
          omega
      rw [if_neg hne]
      refine ih (nb + 1) ?_
      rcases h with h | h
      · left; omega
      · right
        simp only [List.length_cons] at h
        push_cast at h ⊢
        omega

/-- C9: `getView (index)` returns null for every index that is negative or
not less than the number of children; the method is `const`, so the child
list is unchanged. -/
theorem getView_out_of_range (children : List Nat) (index : Int)
    (h : index < 0 ∨ (children.length : Int) ≤ index) :
    getView children index = none := by
  refine getViewAux_out_of_range children 0 index ?_
  rcases h with h | h
  · left; exact h
  · right; omega

/-- C9 witness: out-of-range lookups on the concrete list `[7, 8, 9]`. -/
theorem getView_out_of_range_witness :
    getView [7, 8, 9] (-1) = none ∧ getView [7, 8, 9] 3 = none :=
  ⟨getView_out_of_range [7, 8, 9] (-1) (by left; decide),
   getView_out_of_range [7, 8, 9] 3 (by right; decide)⟩

theorem addViewBeforeLoop_no_match (children : List Nat) (v : Nat) (before : Option Nat)
    (h : ∀ b ∈ children, some b ≠ before) :
    addViewBeforeLoop children v before =
      children.dropLast ++ v :: children.drop (children.length - 1) := by
  induction children with
  | nil => rfl
  | cons x rest ih =>
      cases rest with
      | nil => simp [addViewBeforeLoop]
      | cons y rest2 =>
          have hx : some x ≠ before := h x (by simp)
          simp only [addViewBeforeLoop, if_neg hx]
          have hrest : ∀ b ∈ y :: rest2, some b ≠ before := by
            intro b hb
            exact h b (by simp [hb])
          rw [ih hrest]
          simp [List.dropLast]

/-- C10: on a non-empty container, `addView (view, beforeView)` with
`beforeView` null or not a child inserts `view` immediately before the
current last child, not at the tail of the list. -/
theorem addViewBefore_not_found (children : List Nat) (v : Nat) (before : Option Nat)
    (hne : children ≠ [])
    (h : ∀ b ∈ children, some b ≠ before) :
    addViewBefore children v before =
      children.dropLast ++ v :: children.drop (children.length - 1) := by
  cases children with
  | nil => exact absurd rfl hne
  | cons x rest =>
      simp only [addViewBefore]
      exact addViewBeforeLoop_no_match (x :: rest) v before h

/-- C10 witness: inserting 9 into `[1, 2, 3]` with a null `beforeView` and
with a non-child `beforeView` both yield `[1, 2, 9, 3]`. -/
theorem addViewBefore_not_found_witness :
    addViewBefore [1, 2, 3] 9 none = [1, 2, 9, 3] ∧
      addViewBefore [1, 2, 3] 9 (some 5) = [1, 2, 9, 3] := by
  have h1 := addViewBefore_not_found [1, 2, 3] 9 none (by decide) (by decide)
  have h2 := addViewBefore_not_found [1, 2, 3] 9 (some 5) (by decide) (by decide)
  exact ⟨by rw [h1]; decide, by rw [h2]; decide⟩

theorem idxOf_append_cons_self {v : Nat} (l1 l2 : List Nat) (h : v ∉ l1) :
    (l1 ++ v :: l2).indexOf v = l1.length := by
  induction l1 with
  | nil => simp [List.indexOf_cons_self]
  | cons x rest ih =>
      have hx : v ≠ x := by
        intro hvx
        exact h (by simp [hvx])
      have hrest : v ∉ rest := fun hm => h (by simp [hm])
      simp only [List.cons_append, List.length_cons]
      rw [List.indexOf_cons_ne _ (Ne.symm hx), ih hrest]

theorem erase_append_cons_self {v : Nat} (l1 l2 : List Nat) (h : v ∉ l1) :
    (l1 ++ v :: l2).erase v = l1 ++ l2 := by
  induction l1 with
  | nil => simp
  | cons x rest ih =>
      have hx : x ≠ v := by
        intro hvx
        exact h (by simp [hvx])
      have hrest : v ∉ rest := fun hm => h (by simp [hm])
      simp only [List.cons_append]
      rw [List.erase_cons_tail (by simpa using hx), ih hrest]

/-- C4 counterexample: with children `[1, 2]`, `changeViewZOrder (1, -1)`
returns true, `-1` does not exceed the list length, yet the view ends at
position 1, not at position `-1`: the claim's description of the resulting
position is false for a negative index. -/
theorem changeViewZOrder_negative_counterexample :
    (changeViewZOrder [1, 2] 1 (-1)).1 = true ∧
      (changeViewZOrder [1, 2] 1 (-1)).2 = [2, 1] ∧
      ¬ ((-1 : Int) > ([1, 2] : List Nat).length) ∧
      ¬ (((changeViewZOrder [1, 2] 1 (-1)).2.indexOf 1 : Int) = -1) := by
  refine ⟨by decide, by decide, by decide, by decide⟩

/-- C4 (amended): on a duplicate-free container with at least two children
containing `v`, `changeViewZOrder (v, k)` returns true and yields `v` at
position `k` when `0 ≤ k`, clamped to the end of the list when `k` is not
less than the length; for a negative `k` the view is moved to the end of
the list (not to the front); all other children retain their relative
order; with fewer than two children it returns false. -/
theorem changeViewZOrder_spec (children : List Nat) (view : Nat) (newIndex : Int) :
    (children.Nodup → view ∈ children → 2 ≤ children.length →
      (changeViewZOrder children view newIndex).1 = true ∧
      (changeViewZOrder children view newIndex).2.indexOf view =
        (if 0 ≤ newIndex then min newIndex.toNat (children.length - 1)
         else children.length - 1) ∧
      (changeViewZOrder children view newIndex).2.erase view = children.erase view ∧
      (changeViewZOrder children view newIndex).2.length = children.length) ∧
    (children.length ≤ 1 → (changeViewZOrder children view newIndex).1 = false) := by
  constructor
  · intro hnd hmem hlen
    have hlen1 : ¬ children.length ≤ 1 := by omega
    have hvrest : view ∉ children.erase view := by
      intro hv
      have := (List.Nodup.mem_erase_iff hnd).1 hv
      exact this.1 rfl
    have hrl : (children.erase view).length = children.length - 1 :=
      List.length_erase_of_mem hmem
    simp only [changeViewZOrder, if_neg hlen1, if_pos hmem]
    by_cases hin : 0 ≤ newIndex ∧ newIndex < ((children.erase view).length : Int)
    · have htk : view ∉ (children.erase view).take newIndex.toNat := fun hm =>
        hvrest (List.mem_of_mem_take hm)
      have hlt : newIndex.toNat < (children.erase view).length := by
        omega
      have hlen_take : ((children.erase view).take newIndex.toNat).length =
          newIndex.toNat := by
        rw [List.length_take]
        omega
      refine ⟨by simp [hin], ?_, ?_, ?_⟩
      · rw [if_pos hin]
        rw [idxOf_append_cons_self _ _ htk, hlen_take]
        rw [if_pos hin.1]
        omega
      · rw [if_pos hin]
        rw [erase_append_cons_self _ _ htk, List.take_append_drop]
      · rw [if_pos hin]
        simp only [List.length_append, List.length_cons, hlen_take,
          List.length_drop]
        omega
    · refine ⟨by simp [hin], ?_, ?_, ?_⟩
      · rw [if_neg hin]
        have := idxOf_append_cons_self (children.erase view) [] hvrest
        simp only [List.append_nil] at this ⊢
        rw [this, hrl]
        by_cases h0 : 0 ≤ newIndex
        · rw [if_pos h0]
          have : ¬ newIndex < ((children.erase view).length : Int) := by
            intro hc
            exact hin ⟨h0, hc⟩
          rw [hrl] at this
          omega
        · rw [if_neg h0]
      · rw [if_neg hin]
        have := erase_append_cons_self (children.erase view) [] hvrest
        simpa using this
      · rw [if_neg hin]
        simp only [List.length_append, List.length_cons, List.length_nil, hrl]
        omega
  · intro hlen
    simp [changeViewZOrder, if_pos hlen]

/-- C4 witness: concrete applications of the amended z-order theorem on
`[1, 2, 3]` (in-range index) and on the singleton `[1]`. -/
theorem changeViewZOrder_spec_witness :
    ((changeViewZOrder [1, 2, 3] 3 0).1 = true ∧
      (changeViewZOrder [1, 2, 3] 3 0).2.indexOf 3 = 0 ∧
      (changeViewZOrder [1, 2, 3] 3 0).2.erase 3 = ([1, 2, 3] : List Nat).erase 3 ∧
      (changeViewZOrder [1, 2, 3] 3 0).2.length = ([1, 2, 3] : List Nat).length) ∧
    (changeViewZOrder [1] 1 0).1 = false := by
  constructor
  · have h := (changeViewZOrder_spec [1, 2, 3] 3 0).1 (by decide) (by decide)
      (by decide)
    exact ⟨h.1, by rw [h.2.1]; decide, h.2.2.1, h.2.2.2⟩
  · exact (changeViewZOrder_spec [1] 1 0).2 (by decide)

/-- C6: removing a view `v` (via `removeView` or `removeAll`) clears any
`mouseDownView` or `currentDragView` reference to `v`; consequently, if the
captured references only pointed at children before a removal, they still
only point at children afterwards. -/
theorem removeView_clears_capture (s : ContME) (v : Nat) :
    ((s.removeView v).1.mouseDownView ≠ some v ∧
      (s.removeView v).1.currentDragView ≠ some v) ∧
    ((s.removeAll).1.mouseDownView ≠ some v ∧
      (s.removeAll).1.currentDragView ≠ some v) ∧
    ((∀ w, s.mouseDownView = some w → w ∈ s.children) →
      ∀ w, (s.removeView v).1.mouseDownView = some w →
        w ∈ (s.removeView v).1.children) ∧
    ((∀ w, s.currentDragView = some w → w ∈ s.children) →
      ∀ w, (s.removeView v).1.currentDragView = some w →
        w ∈ (s.removeView v).1.children) ∧
    (∀ w, (s.removeAll).1.mouseDownView = some w →
      w ∈ (s.removeAll).1.children) := by
  refine ⟨⟨?_, ?_⟩, ⟨by simp [ContME.removeAll], by simp [ContME.removeAll]⟩,
    ?_, ?_, by simp [ContME.removeAll]⟩
  · simp only [ContME.removeView]
    by_cases hm : v ∈ s.children <;>
      by_cases hd : s.mouseDownView = some v <;>
        simp_all [ContME.removeView]
  · simp only [ContME.removeView]
    by_cases hm : v ∈ s.children <;>
      by_cases hd : s.currentDragView = some v <;>
        simp_all [ContME.removeView]
  · intro hinv w hw
    simp only [ContME.removeView] at hw ⊢
    by_cases hm : v ∈ s.children <;>
      by_cases hd : s.mouseDownView = some v <;>
        simp_all [ContME.removeView]
  · intro hinv w hw
    simp only [ContME.removeView] at hw ⊢
    by_cases hm : v ∈ s.children <;>
      by_cases hd : s.currentDragView = some v <;>
        simp_all [ContME.removeView]

/-- C6 witness: removing view 2 from a container capturing view 2 as both
mouse-down and drag target clears both references, and the child-membership
invariant holds concretely. -/
theorem removeView_clears_capture_witness :
    ((ContME.removeView ⟨[1, 2], some 2, some 2⟩ 2).1.mouseDownView ≠ some 2 ∧
      (ContME.removeView ⟨[1, 2], some 2, some 2⟩ 2).1.currentDragView ≠ some 2) ∧
    (∀ w, (ContME.removeView ⟨[1, 2], some 2, some 2⟩ 2).1.mouseDownView = some w →
      w ∈ (ContME.removeView ⟨[1, 2], some 2, some 2⟩ 2).1.children) := by
  have h := removeView_clears_capture ⟨[1, 2], some 2, some 2⟩ 2
  exact ⟨h.1, h.2.2.1 (by decide)⟩

theorem resizeV_left (tr : Bool) (n hD : Int) (counter : Nat) (a : AutosizeFlags)
    (r : CRect) : (resizeV tr n hD counter a r).left = r.left := by
  simp only [resizeV]
  split
  · split <;> simp [CRect.offset, CRect.setHeight, CRect.getHeight]
  · split
    · split <;> rfl
    · rfl

theorem resizeV_right (tr : Bool) (n hD : Int) (counter : Nat) (a : AutosizeFlags)
    (r : CRect) : (resizeV tr n hD counter a r).right = r.right := by
  simp only [resizeV]
  split
  · split <;> simp [CRect.offset, CRect.setHeight, CRect.getHeight]
  · split
    · split <;> rfl
    · rfl

theorem resizeStep_viewSize (tc tr : Bool) (n wD hD : Int) (counter : Nat)
    (v : ViewState) :
    (resizeStep tc tr n wD hD counter v).viewSize =
      resizeV tr n hD counter v.autosize (resizeH tc n wD counter v.autosize v.viewSize) := by
  simp only [resizeStep]
  split
  · next h => exact h.symm
  · rfl

theorem resizeStep_right_no_left (tr : Bool) (n wD hD : Int) (counter : Nat)
    (v : ViewState) (hr : v.autosize.right = true) (hl : v.autosize.left = false) :
    (resizeStep false tr n wD hD counter v).viewSize.right = v.viewSize.right + wD ∧
    (resizeStep false tr n wD hD counter v).viewSize.left = v.viewSize.left + wD := by
  rw [resizeStep_viewSize, resizeV_right, resizeV_left]
  by_cases hw : wD = 0
  · subst hw
    simp [resizeH]
  · simp only [resizeH, if_neg (by simp : ¬ (false = true))]
    rw [if_pos ⟨hw, hr⟩, if_pos hl]
    exact ⟨rfl, rfl⟩

theorem resizeLoop_getElem (tc tr : Bool) (n wD hD : Int) (k : Nat)
    (l : List ViewState) (i : Nat) :
    (resizeLoop tc tr n wD hD k l)[i]? =
      (l[i]?).map (resizeStep tc tr n wD hD (k + i)) := by
  induction l generalizing k i with
  | nil => simp [resizeLoop]
  | cons v rest ih =>
      cases i with
      | zero => simp [resizeLoop]
      | succ j =>
          simp only [resizeLoop, List.getElem?_cons_succ, ih (k + 1) j]
          have : k + 1 + j = k + (j + 1) := by omega
          rw [this]

/-- C1 counterexample: growing the container of `autosizeCexCont` from width
100 to width 110 moves the first right-flagged child from (10,10,20,20) to
(20,10,30,20): the right edge grows by the delta 10 as claimed, but the
left edge moves by 10 as well instead of staying unchanged. -/
theorem setViewSize_left_edge_counterexample :
    ((CViewContainer.setViewSize autosizeCexCont ⟨0, 0, 110, 100⟩).children.map
        (fun w => w.viewSize)) = [⟨20, 10, 30, 20⟩, ⟨40, 10, 50, 20⟩] ∧
      ¬ ((CViewContainer.setViewSize autosizeCexCont ⟨0, 0, 110, 100⟩).children.map
          (fun w => w.viewSize.left) =
        autosizeCexCont.children.map (fun w => w.viewSize.left)) := by
  exact ⟨by decide, by decide⟩

/-- C1 (amended): for every child whose autosize flags include
`kAutosizeRight` but not `kAutosizeLeft`, in a container without the column
flag, `setViewSize` with a width delta `D` moves the child's right edge by
exactly `D` and also moves its left edge by exactly `D` (the child shifts
right, keeping its width); the left edge stays in place only when
`kAutosizeLeft` is also set. -/
theorem setViewSize_right_autosize (c : ContainerGeom) (rect : CRect) (i : Nat)
    (v : ViewState) (hcol : c.autosize.column = false)
    (hv : c.children[i]? = some v)
    (hr : v.autosize.right = true) (hl : v.autosize.left = false) :
    ∃ w, (CViewContainer.setViewSize c rect).children[i]? = some w ∧
      w.viewSize.right = v.viewSize.right + (rect.getWidth - c.size.getWidth) ∧
      w.viewSize.left = v.viewSize.left + (rect.getWidth - c.size.getWidth) := by
  by_cases heq : rect = c.size
  · refine ⟨v, ?_, ?_, ?_⟩
    · simp [CViewContainer.setViewSize, heq, hv]
    · rw [heq]; ring
    · rw [heq]; ring
  · simp only [CViewContainer.setViewSize, if_neg heq]
    by_cases hz : rect.getWidth - c.size.getWidth = 0 ∧
        rect.getHeight - c.size.getHeight = 0
    · refine ⟨v, ?_, ?_, ?_⟩
      · simp [hz, hv]
      · rw [hz.1]; ring
      · rw [hz.1]; ring
    · rw [if_neg hz]
      refine ⟨resizeStep false c.autosize.row (c.children.length : Int)
        (rect.getWidth - c.size.getWidth) (rect.getHeight - c.size.getHeight)
        (0 + i) v, ?_, ?_, ?_⟩
      · simp only [hcol]
        rw [resizeLoop_getElem, hv]
        rfl
      · exact (resizeStep_right_no_left _ _ _ _ _ v hr hl).1
      · exact (resizeStep_right_no_left _ _ _ _ _ v hr hl).2

/-- C1 witness: the amended theorem applied to the concrete container
`autosizeCexCont` resized to width 110 (delta 10): both edges of child 0
move by 10. -/
theorem setViewSize_right_autosize_witness :
    ∃ w, (CViewContainer.setViewSize autosizeCexCont ⟨0, 0, 110, 100⟩).children[0]? =
        some w ∧
      w.viewSize.right = 30 ∧ w.viewSize.left = 20 := by
  obtain ⟨w, hw, hright, hleft⟩ :=
    setViewSize_right_autosize autosizeCexCont ⟨0, 0, 110, 100⟩ 0
      ⟨true, ⟨false, false, true, false, false, false⟩, ⟨10, 10, 20, 20⟩,
        ⟨10, 10, 20, 20⟩⟩ (by decide) (by decide) (by decide) (by decide)
  refine ⟨w, hw, by rw [hright]; decide, by rw [hleft]; decide⟩

theorem setViewSize_size (c : ContainerGeom) (rect : CRect) :
    (CViewContainer.setViewSize c rect).size = rect := by
  by_cases heq : rect = c.size
  · simp [CViewContainer.setViewSize, heq]
  · simp only [CViewContainer.setViewSize, if_neg heq]
    split <;> rfl

/-- C2 counterexample: on `sizeToFitCexCont` (one visible child at
(10,0,20,20), bounding box width 10) `sizeToFit` returns true but produces a
container of width 30 = bounds.right + bounds.left, not the bounding box
width 10. -/
theorem sizeToFit_width_counterexample :
    (CViewContainer.sizeToFit sizeToFitCexCont).1 = true ∧
      fitBounds sizeToFitCexCont.children ⟨50000, 50000, -50000, -50000⟩ =
        ⟨10, 0, 20, 20⟩ ∧
      (CViewContainer.sizeToFit sizeToFitCexCont).2.size.getWidth = 30 ∧
      ¬ ((CViewContainer.sizeToFit sizeToFitCexCont).2.size.getWidth =
          CRect.getWidth ⟨10, 0, 20, 20⟩) := by
  exact ⟨by decide, by decide, by decide, by decide⟩

/-- C2 (amended): without row or column autosizing, `sizeToFit` returns true
and sets the container frame so that, with `b` the accumulated bounds of the
visible children (starting from the 50000-sentinel rectangle), the new width
is `b.right + b.left` and the new height is `b.bottom + b.top` — the
right/bottom extent of the visible children plus a margin equal to their
left/top extent, which equals the bounding box width/height only when the
box's left/top are zero; with row or column autosizing set it returns false
and changes nothing. -/
theorem sizeToFit_spec (c : ContainerGeom) :
    (c.autosize.column = false → c.autosize.row = false →
      (CViewContainer.sizeToFit c).1 = true ∧
      (CViewContainer.sizeToFit c).2.size =
        ⟨c.size.left, c.size.top,
         c.size.left + (fitBounds c.children ⟨50000, 50000, -50000, -50000⟩).right +
           (fitBounds c.children ⟨50000, 50000, -50000, -50000⟩).left,
         c.size.top + (fitBounds c.children ⟨50000, 50000, -50000, -50000⟩).bottom +
           (fitBounds c.children ⟨50000, 50000, -50000, -50000⟩).top⟩) ∧
    (c.autosize.column = true ∨ c.autosize.row = true →
      CViewContainer.sizeToFit c = (false, c)) := by
  constructor
  · intro hc hrow
    have hguard : ¬ (c.autosize.column = true ∨ c.autosize.row = true) := by
      simp [hc, hrow]
    constructor
    · simp [CViewContainer.sizeToFit, hguard]
    · simp only [CViewContainer.sizeToFit, if_neg hguard]
      exact setViewSize_size c _
  · intro h
    simp [CViewContainer.sizeToFit, h]

/-- C2 witness: the amended theorem applied to `sizeToFitCexCont` (frame
becomes (0,0,30,20)) and to a row-autosizing container (untouched, false). -/
theorem sizeToFit_spec_witness :
    ((CViewContainer.sizeToFit sizeToFitCexCont).1 = true ∧
      (CViewContainer.sizeToFit sizeToFitCexCont).2.size = ⟨0, 0, 30, 20⟩) ∧
    CViewContainer.sizeToFit
        ⟨⟨0, 0, 9, 9⟩, ⟨false, false, false, false, false, true⟩, []⟩ =
      (false, ⟨⟨0, 0, 9, 9⟩, ⟨false, false, false, false, false, true⟩, []⟩) := by
  constructor
  · have h := (sizeToFit_spec sizeToFitCexCont).1 (by decide) (by decide)
    exact ⟨h.1, by rw [h.2]; decide⟩
  · exact (sizeToFit_spec
      ⟨⟨0, 0, 9, 9⟩, ⟨false, false, false, false, false, true⟩, []⟩).2
      (by right; decide)

theorem onMouseDownLoop_firstHit (p2 : CPoint) (b : CButtonState)
    (L : List (Nat × SubView)) (i : Nat) (v : SubView)
    (hfind : firstHitLoop p2 L = some (i, v))
    (hmod : ¬ (v.controlListener = true ∧ b.hasModifier = true ∧
      v.modifierClickResult ≠ 0))
    (hres : v.onMouseDownResult = CMouseEventResult.kMouseEventHandled)
    (hnb : 1 < v.nbReference) :
    onMouseDownLoop p2 b L = (.kMouseEventHandled, some i) := by
  induction L with
  | nil => simp [firstHitLoop] at hfind
  | cons hd rest ih =>
      obtain ⟨j, w⟩ := hd
      by_cases hguard : w.visible = true ∧ w.mouseEnabled = true ∧ w.hitTest p2 = true
      · simp only [firstHitLoop, if_pos hguard, Option.some.injEq, Prod.mk.injEq] at hfind
        obtain ⟨rfl, rfl⟩ := hfind
        simp only [onMouseDownLoop, if_pos hguard, if_neg hmod]
        rw [if_pos (by rw [hres]; decide)]
        rw [if_pos ⟨hnb, hres⟩, hres]
      · simp only [firstHitLoop, if_neg hguard] at hfind
        simp only [onMouseDownLoop, if_neg hguard]
        exact ih hfind

/-- C5: (a) when the dispatch loop's hit child is offered the mouse-down
without the modifier-click shortcut, answers handled and has a reference
count above one, the container records it as `mouseDownView`; (b) with a
capture set, `onMouseUp` forwards directly to the captured child with the
point translated to local space (no re-hit-testing), clears the capture and
reports handled; (c) with a capture set, `onMouseMoved` forwards directly
with the translated point and keeps the capture while the child handles the
move; (d) when the child declines the move the capture is cleared and not
handled is reported; (e) with no capture both report not handled. -/
theorem mouseCapture_spec (c : ContainerEv) (p : CPoint) (b : CButtonState) :
    (∀ i v, c.firstHit p = some (i, v) →
      ¬ (v.controlListener = true ∧ b.hasModifier = true ∧
        v.modifierClickResult ≠ 0) →
      v.onMouseDownResult = CMouseEventResult.kMouseEventHandled →
      1 < v.nbReference →
      c.onMouseDown p b =
        (.kMouseEventHandled, { c with mouseDownView := some i })) ∧
    (∀ i, c.mouseDownView = some i →
      c.onMouseUp p b =
        (.kMouseEventHandled, { c with mouseDownView := none },
          some (i, ⟨p.x - c.size.left, p.y - c.size.top⟩))) ∧
    (∀ i v, c.mouseDownView = some i → c.children[i]? = some v →
      v.onMouseMovedResult = CMouseEventResult.kMouseEventHandled →
      c.onMouseMoved p b =
        (.kMouseEventHandled, c, some (i, ⟨p.x - c.size.left, p.y - c.size.top⟩))) ∧
    (∀ i v, c.mouseDownView = some i → c.children[i]? = some v →
      v.onMouseMovedResult ≠ CMouseEventResult.kMouseEventHandled →
      c.onMouseMoved p b =
        (.kMouseEventNotHandled, { c with mouseDownView := none },
          some (i, ⟨p.x - c.size.left, p.y - c.size.top⟩))) ∧
    (c.mouseDownView = none →
      c.onMouseUp p b = (.kMouseEventNotHandled, c, none) ∧
      c.onMouseMoved p b = (.kMouseEventNotHandled, c, none)) := by
  refine ⟨?_, ?_, ?_, ?_, ?_⟩
  · intro i v hfind hmod hres hnb
    simp only [ContainerEv.firstHit] at hfind
    have hloop := onMouseDownLoop_firstHit _ b _ i v hfind hmod hres hnb
    simp [ContainerEv.onMouseDown, hloop]
  · intro i hcap
    simp [ContainerEv.onMouseUp, hcap]
  · intro i v hcap hchild hres
    simp [ContainerEv.onMouseMoved, hcap, hchild, hres]
  · intro i v hcap hchild hres
    simp [ContainerEv.onMouseMoved, hcap, hchild, hres]
  · intro hcap
    exact ⟨by simp [ContainerEv.onMouseUp, hcap], by simp [ContainerEv.onMouseMoved, hcap]⟩

/-- C5 witness: the spec scenario on the concrete container `capCont`:
mouse-down at (17,17) captures child 0; a captured move routes to child 0
and keeps the capture; a captured up routes to child 0 and clears the
capture; with no capture, up reports not handled. -/
theorem mouseCapture_spec_witness :
    capCont.onMouseDown ⟨17, 17⟩ ⟨false, false, false, false⟩ =
        (.kMouseEventHandled, capContDown) ∧
      capContDown.onMouseMoved ⟨17, 17⟩ ⟨false, false, false, false⟩ =
        (.kMouseEventHandled, capContDown, some (0, ⟨17, 17⟩)) ∧
      capContDown.onMouseUp ⟨17, 17⟩ ⟨false, false, false, false⟩ =
        (.kMouseEventHandled, capCont, some (0, ⟨17, 17⟩)) ∧
      capCont.onMouseUp ⟨17, 17⟩ ⟨false, false, false, false⟩ =
        (.kMouseEventNotHandled, capCont, none) := by
  have hdown := (mouseCapture_spec capCont ⟨17, 17⟩ ⟨false, false, false, false⟩).1
    0 capChild (by decide) (by decide) (by decide) (by decide)
  have hmove := (mouseCapture_spec capContDown ⟨17, 17⟩
    ⟨false, false, false, false⟩).2.2.1 0 capChild (by decide) (by decide) (by decide)
  have hup := (mouseCapture_spec capContDown ⟨17, 17⟩
    ⟨false, false, false, false⟩).2.1 0 (by decide)
  have hnone := ((mouseCapture_spec capCont ⟨17, 17⟩
    ⟨false, false, false, false⟩).2.2.2.2 (by decide)).1
  refine ⟨by rw [hdown]; decide, by rw [hmove]; decide, by rw [hup]; decide,
    by rw [hnone]⟩

theorem getCont_mem (l : List ContW) (i : Nat) (c : ContW)
    (h : getCont l i = some c) : c ∈ l := by
  induction l generalizing i with
  | nil => simp [getCont] at h
  | cons a rest ih =>
      cases i with
      | zero =>
          simp only [getCont, Option.some.injEq] at h
          simp [h]
      | succ j => exact List.mem_cons_of_mem a (ih j h)

theorem mem_getCont (l : List ContW) (x : ContW) (h : x ∈ l) :
    ∃ j, getCont l j = some x := by
  induction l with
  | nil => simp at h
  | cons a rest ih =>
      rcases List.mem_cons.1 h with h | h
      · exact ⟨0, by simp [getCont, h]⟩
      · obtain ⟨j, hj⟩ := ih h
        exact ⟨j + 1, hj⟩

theorem mem_updateCont (l : List ContW) (i : Nat) (cNew : ContW) (x : ContW)
    (h : x ∈ updateCont l i cNew) :
    x = cNew ∨ ∃ j, j ≠ i ∧ getCont l j = some x := by
  induction l generalizing i with
  | nil => simp [updateCont] at h
  | cons a rest ih =>
      cases i with
      | zero =>
          simp only [updateCont, List.mem_cons] at h
          rcases h with h | h
          · exact Or.inl h
          · obtain ⟨j, hj⟩ := mem_getCont rest x h
            exact Or.inr ⟨j + 1, by omega, hj⟩
      | succ k =>
          simp only [updateCont, List.mem_cons] at h
          rcases h with h | h
          · right
            exact ⟨0, by omega, by simp [getCont, h]⟩
          · rcases ih k h with h1 | ⟨j, hj, hg⟩
            · exact Or.inl h1
            · right
              exact ⟨j + 1, by omega, hg⟩

theorem not_mem_other (l : List ContW) (i : Nat) (c : ContW)
    (hget : getCont l i = some c) (hpw : l.Pairwise Disj)
    (v : Nat) (hv : v ∈ c.children) :
    ∀ j d, j ≠ i → getCont l j = some d → v ∉ d.children := by
  induction l generalizing i with
  | nil => simp [getCont] at hget
  | cons a rest ih =>
      rw [List.pairwise_cons] at hpw
      intro j d hji hgj
      cases i with
      | zero =>
          simp only [getCont, Option.some.injEq] at hget
          subst hget
          cases j with
          | zero => exact absurd rfl hji
          | succ k =>
              have hd : d ∈ rest := getCont_mem rest k d hgj
              exact hpw.1 d hd v hv
      | succ i2 =>
          cases j with
          | zero =>
              simp only [getCont, Option.some.injEq] at hgj
              subst hgj
              intro hvd
              have hc : c ∈ rest := getCont_mem rest i2 c hget
              exact hpw.1 c hc v hvd hv
          | succ k =>
              exact ih i2 hget hpw.2 k d (by omega) hgj

theorem pairwise_disj_updateCont (l : List ContW) (i : Nat) (c cNew : ContW)
    (hget : getCont l i = some c)
    (hcond : ∀ x ∈ cNew.children, x ∈ c.children ∨ ∀ d ∈ l, x ∉ d.children)
    (hpw : l.Pairwise Disj) : (updateCont l i cNew).Pairwise Disj := by
  induction l generalizing i with
  | nil => simp [updateCont]
  | cons a rest ih =>
      rw [List.pairwise_cons] at hpw
      cases i with
      | zero =>
          simp only [getCont, Option.some.injEq] at hget
          subst hget
          simp only [updateCont]
          rw [List.pairwise_cons]
          refine ⟨?_, hpw.2⟩
          intro e he x hx
          rcases hcond x hx with h | h
          · exact hpw.1 e he x h
          · exact h e (List.mem_cons_of_mem a he)
      | succ i2 =>
          simp only [updateCont]
          rw [List.pairwise_cons]
          constructor
          · intro e he x hxa
            rcases mem_updateCont rest i2 cNew e he with rfl | ⟨j, _, hgj⟩
            · intro hxe
              rcases hcond x hxe with h | h
              · have hc : c ∈ rest := getCont_mem rest i2 c hget
                exact hpw.1 c hc x hxa h
              · exact h a (List.mem_cons_self a rest) hxa
            · exact hpw.1 e (getCont_mem rest j e hgj) x hxa
          · refine ih i2 hget ?_ hpw.2
            intro x hx
            rcases hcond x hx with h | h
            · exact Or.inl h
            · exact Or.inr fun d hd => h d (List.mem_cons_of_mem a hd)

theorem addView_inv (w : World) (ci v : Nat) (h : WorldInv w) :
    WorldInv (w.addView ci v).1 := by
  obtain ⟨hone, hpw⟩ := h
  unfold World.addView
  cases hget : getCont w.conts ci with
  | none => exact ⟨hone, hpw⟩
  | some c =>
      by_cases hflag : v ∈ w.attachedViews
      · simp only [if_pos hflag]
        exact ⟨hone, hpw⟩
      · simp only [if_neg hflag]
        have hcmem : c ∈ w.conts := getCont_mem _ _ _ hget
        have hca : c.attachedC = true := (hone c hcmem).1
        have hfresh : ∀ d ∈ w.conts, v ∉ d.children := by
          intro d hd hvd
          exact hflag ((hone d hd).2.2 v hvd)
        rw [if_pos hca]
        constructor
        · intro c2 hc2
          rcases mem_updateCont _ _ _ _ hc2 with rfl | ⟨j, _, hgj⟩
          · have hnd := (hone c hcmem).2.1
            refine ⟨hca, ?_, ?_⟩
            · rw [List.nodup_append]
              refine ⟨hnd, List.nodup_singleton v, ?_⟩
              intro x hx hxv
              simp only [List.mem_singleton] at hxv
              subst hxv
              exact hfresh c hcmem hx
            · intro x hx
              rcases List.mem_append.1 hx with hx | hx
              · exact List.mem_cons_of_mem v ((hone c hcmem).2.2 x hx)
              · simp only [List.mem_singleton] at hx
                subst hx
                exact List.mem_cons_self x w.attachedViews
          · have hc2mem : c2 ∈ w.conts := getCont_mem _ _ _ hgj
            refine ⟨(hone c2 hc2mem).1, (hone c2 hc2mem).2.1, ?_⟩
            intro x hx
            exact List.mem_cons_of_mem v ((hone c2 hc2mem).2.2 x hx)
        · refine pairwise_disj_updateCont _ _ _ _ hget ?_ hpw
          intro x hx
          rcases List.mem_append.1 hx with hx | hx
          · exact Or.inl hx
          · simp only [List.mem_singleton] at hx
            subst hx
            exact Or.inr hfresh

theorem removeView_inv (w : World) (ci v : Nat) (h : WorldInv w) :
    WorldInv (w.removeView ci v).1 := by
  obtain ⟨hone, hpw⟩ := h
  unfold World.removeView
  cases hget : getCont w.conts ci with
  | none => exact ⟨hone, hpw⟩
  | some c =>
      by_cases hmem : v ∈ c.children
      · simp only [if_pos hmem]
        have hcmem : c ∈ w.conts := getCont_mem _ _ _ hget
        have hca : c.attachedC = true := (hone c hcmem).1
        rw [if_pos hca]
        constructor
        · intro c2 hc2
          rcases mem_updateCont _ _ _ _ hc2 with rfl | ⟨j, hj, hgj⟩
          · have hnd := (hone c hcmem).2.1
            refine ⟨hca, hnd.erase v, ?_⟩
            intro x hx
            have hxprop := (List.Nodup.mem_erase_iff hnd).1 hx
            exact (List.mem_erase_of_ne hxprop.1).2 ((hone c hcmem).2.2 x hxprop.2)
          · have hc2mem : c2 ∈ w.conts := getCont_mem _ _ _ hgj
            refine ⟨(hone c2 hc2mem).1, (hone c2 hc2mem).2.1, ?_⟩
            intro x hx
            have hxnev : x ≠ v := by
              intro hxv
              subst hxv
              exact not_mem_other _ _ _ hget hpw x hmem j c2 hj hgj hx
            exact (List.mem_erase_of_ne hxnev).2 ((hone c2 hc2mem).2.2 x hx)
        · refine pairwise_disj_updateCont _ _ _ _ hget ?_ hpw
          intro x hx
          exact Or.inl (List.erase_subset v c.children hx)
      · simp only [if_neg hmem]
        exact ⟨hone, hpw⟩

theorem runOps_inv (w : World) (ops : List COp) (h : WorldInv w) :
    WorldInv (runOps w ops) := by
  induction ops generalizing w with
  | nil => exact h
  | cons op rest ih =>
      have hstep : WorldInv (applyOp w op) := by
        cases op with
        | add ci v => exact addView_inv w ci v h
        | remove ci v => exact removeView_inv w ci v h
      exact ih (applyOp w op) hstep

/-- C3 counterexample: on a detached container, `addView (5)` succeeds twice
because the view is never marked attached, so the child sequence contains
view 5 twice — the claimed invariant fails as stated. -/
theorem addView_detached_counterexample :
    (((World.mk [⟨false, []⟩] []).addView 0 5).2 = true) ∧
      ((((World.mk [⟨false, []⟩] []).addView 0 5).1.addView 0 5).2 = true) ∧
      ((((World.mk [⟨false, []⟩] []).addView 0 5).1.addView 0 5).1.conts =
        [⟨false, [5, 5]⟩]) ∧
      ¬ (∀ c ∈ ((((World.mk [⟨false, []⟩] []).addView 0 5).1.addView 0 5).1.conts),
          c.children.Nodup) := by
  refine ⟨by decide, by decide, by decide, by decide⟩

/-- C3 (amended): `addView` returns false on a view whose attached flag is
set, and in a world where every container is attached (so that insertion
marks the view attached and removal clears the mark) every sequence of
`addView`/`removeView` operations preserves that no child sequence contains
the same view twice and that a view is a child of at most one container;
for a detached container the inserted view is not marked attached, and the
protection does not hold. -/
theorem addView_nodup_spec (w : World) (ops : List COp) (h : WorldInv w) :
    (∀ c ∈ (runOps w ops).conts, c.children.Nodup) ∧
      ((runOps w ops).conts.Pairwise Disj) ∧
      (∀ ci v, v ∈ w.attachedViews → (w.addView ci v).2 = false) := by
  have hinv := runOps_inv w ops h
  refine ⟨fun c hc => (hinv.1 c hc).2.1, hinv.2, ?_⟩
  intro ci v hv
  unfold World.addView
  cases hget : getCont w.conts ci with
  | none => rfl
  | some c => simp [hv]

/-- C3 witness: two attached containers holding views 1 and 2; after an add
and a remove the lists stay duplicate-free and disjoint, and adding the
already-attached view 1 fails. -/
theorem addView_nodup_spec_witness :
    (∀ c ∈ (runOps ⟨[⟨true, [1]⟩, ⟨true, [2]⟩], [1, 2]⟩
        [COp.add 0 3, COp.remove 1 2]).conts, c.children.Nodup) ∧
      ((runOps ⟨[⟨true, [1]⟩, ⟨true, [2]⟩], [1, 2]⟩
        [COp.add 0 3, COp.remove 1 2]).conts.Pairwise Disj) ∧
      ((World.addView ⟨[⟨true, [1]⟩, ⟨true, [2]⟩], [1, 2]⟩ 0 1).2 = false) := by
  have h := addView_nodup_spec ⟨[⟨true, [1]⟩, ⟨true, [2]⟩], [1, 2]⟩
    [COp.add 0 3, COp.remove 1 2]
    (by
      constructor
      · decide
      · rw [List.pairwise_cons]
        refine ⟨?_, by simp⟩
        intro b hb
        simp only [List.mem_singleton] at hb
        subst hb
        intro x hx
        simp only [List.mem_singleton] at hx
        subst hx
        decide)
  exact ⟨h.1, h.2.1, h.2.2 0 1 (by decide)⟩

end VSTGUI
